import Mathlib

/-!
Verification development for the nimbus-note-exporter repository.

The cleanup pass (`scripts/cleanup-obsidian.py`, function `clean_markdown`)
is embedded as an executable function over `List Char`.  Each Python
`re.sub(pattern, repl, body)` call is embedded as `reSub m body` where `m`
is a hand-written matcher implementing exactly that pattern's
leftmost/greedy semantics at one position, and `reSub` is the scanning
driver of `re.sub` (leftmost, non-overlapping, resume after each match).

All patterns of the source consist of literals, greedy character-class
stars/pluses whose class is disjoint from the literal that follows (so
greedy matching is maximal-munch), an optional single character before a
literal, and one genuinely backtracking construct `\s*\n` (which matches
up to the last newline of a whitespace run); each of these is modelled
directly.  Python's regex class `\s` on `str` patterns, `str.isspace()`
and the set stripped by `str.rstrip()` all coincide: the 29 code points
listed in `pyWhitespace` (CPython, Unicode character database); `isWS`
decides membership in exactly that set.
-/

/-- The 29 code points of Python's whitespace: the characters matched by
the regex class `\s` (for `str` patterns), satisfying `str.isspace()`,
and stripped by `str.rstrip()`. -/
def pyWhitespace : List Nat :=
  [0x09, 0x0A, 0x0B, 0x0C, 0x0D, 0x1C, 0x1D, 0x1E, 0x1F, 0x20, 0x85, 0xA0,
   0x1680, 0x2000, 0x2001, 0x2002, 0x2003, 0x2004, 0x2005, 0x2006, 0x2007,
   0x2008, 0x2009, 0x200A, 0x2028, 0x2029, 0x202F, 0x205F, 0x3000]

/-- Python's regex class `\s` (also the set stripped by `str.rstrip()`). -/
def isWS (c : Char) : Bool := pyWhitespace.contains c.toNat

def isNL (c : Char) : Bool := c = '\n'

/-- Match a literal: `lit p l = some r` iff `l = p ++ r`. -/
def lit : List Char → List Char → Option (List Char)
  | [], l => some l
  | _ :: _, [] => none
  | p :: ps, x :: xs => if x = p then lit ps xs else none

def litS (s : String) (l : List Char) : Option (List Char) := lit s.toList l

/-- Greedy `X*` for a character class: maximal munch (take, rest). -/
def takeW (p : Char → Bool) (l : List Char) : List Char × List Char :=
  (l.takeWhile p, l.dropWhile p)

/-- Greedy `X+` for a character class: fails when no character matches. -/
def takeW1 (p : Char → Bool) (l : List Char) : Option (List Char × List Char) :=
  if (l.takeWhile p).isEmpty then none else some (l.takeWhile p, l.dropWhile p)

/-- Python-compatible match of `\s*\n`: the greedy `\s*` backtracks until
the final `\n` literal matches, i.e. the match consumes the leading
whitespace run up to and including its last newline.  Returns the rest. -/
def takeToLastNL (l : List Char) : Option (List Char) :=
  let ws := l.takeWhile isWS
  let rest := l.dropWhile isWS
  let rev := ws.reverse
  match rev.dropWhile (fun c => !(isNL c)) with
  | '\n' :: _ => some ((rev.takeWhile (fun c => !(isNL c))).reverse ++ rest)
  | _ => none

/-- Optional single character (regex `c?`). -/
def optC (c : Char) (l : List Char) : List Char :=
  match l with
  | x :: xs => if x = c then xs else l
  | [] => l

/-- One bounded step of `re.sub` scanning, with explicit fuel.  Each of the
embedded matchers consumes at least one character whenever it succeeds, so
fuel `l.length` makes `reSub` total and equal to Python's unbounded scan. -/
def reSubF (m : List Char → Option (List Char × List Char)) :
    Nat → List Char → List Char
  | 0, l => l
  | _ + 1, [] => []
  | fuel + 1, c :: cs =>
    match m (c :: cs) with
    | some (rep, rest) => rep ++ reSubF m fuel rest
    | none => c :: reSubF m fuel cs

/-- `re.sub(pattern-of-m, repl-of-m, l)`. -/
def reSub (m : List Char → Option (List Char × List Char)) (l : List Char) :
    List Char :=
  reSubF m l.length l

/-- `r'<a\s+href="([^"]*)"[^>]*>\s*<img\s+src="[^"]*"[^>]*/?\s*>\s*</a>'`
replaced by `r'![](\1)'` (line 27). -/
def mLinkedImage (l : List Char) : Option (List Char × List Char) := do
  let r ← litS "<a" l
  let (_, r) ← takeW1 isWS r
  let r ← litS "href=\"" r
  let (href, r) := takeW (fun c => c ≠ '"') r
  let r ← litS "\"" r
  let (_, r) := takeW (fun c => c ≠ '>') r
  let r ← litS ">" r
  let (_, r) := takeW isWS r
  let r ← litS "<img" r
  let (_, r) ← takeW1 isWS r
  let r ← litS "src=\"" r
  let (_, r) := takeW (fun c => c ≠ '"') r
  let r ← litS "\"" r
  let (_, r) := takeW (fun c => c ≠ '>') r
  let r ← litS ">" r
  let (_, r) := takeW isWS r
  let r ← litS "</a>" r
  some ("![](".toList ++ href ++ [')'], r)

/-- `r'<img\s+src="([^"]*)"[^>]*/?\s*>'` → `r'![](\1)'` (line 35). -/
def mImgTag (l : List Char) : Option (List Char × List Char) := do
  let r ← litS "<img" l
  let (_, r) ← takeW1 isWS r
  let r ← litS "src=\"" r
  let (src, r) := takeW (fun c => c ≠ '"') r
  let r ← litS "\"" r
  let (_, r) := takeW (fun c => c ≠ '>') r
  let r ← litS ">" r
  some ("![](".toList ++ src ++ [')'], r)

/-- `r'<strong>([^<]*)</strong>'` → `r'**\1**'` (line 41). -/
def mStrong (l : List Char) : Option (List Char × List Char) := do
  let r ← litS "<strong>" l
  let (t, r) := takeW (fun c => c ≠ '<') r
  let r ← litS "</strong>" r
  some ('*' :: '*' :: t ++ ['*', '*'], r)

/-- `r'<b>([^<]*)</b>'` → `r'**\1**'` (line 42). -/
def mB (l : List Char) : Option (List Char × List Char) := do
  let r ← litS "<b>" l
  let (t, r) := takeW (fun c => c ≠ '<') r
  let r ← litS "</b>" r
  some ('*' :: '*' :: t ++ ['*', '*'], r)

/-- `r'<em>([^<]*)</em>'` → `r'*\1*'` (line 46). -/
def mEm (l : List Char) : Option (List Char × List Char) := do
  let r ← litS "<em>" l
  let (t, r) := takeW (fun c => c ≠ '<') r
  let r ← litS "</em>" r
  some ('*' :: t ++ ['*'], r)

/-- `r'<i>([^<]*)</i>'` → `r'*\1*'` (line 47). -/
def mI (l : List Char) : Option (List Char × List Char) := do
  let r ← litS "<i>" l
  let (t, r) := takeW (fun c => c ≠ '<') r
  let r ← litS "</i>" r
  some ('*' :: t ++ ['*'], r)

/-- `r'<code>([^<]*)</code>'` wrapped in backquotes (line 51). -/
def mCode (l : List Char) : Option (List Char × List Char) := do
  let r ← litS "<code>" l
  let (t, r) := takeW (fun c => c ≠ '<') r
  let r ← litS "</code>" r
  some (Char.ofNat 96 :: t ++ [Char.ofNat 96], r)

/-- `r'</?code[^>]*>'` → `''` (line 54). -/
def mCodeTag (l : List Char) : Option (List Char × List Char) := do
  let r ← litS "<" l
  let r := optC '/' r
  let r ← litS "code" r
  let (_, r) := takeW (fun c => c ≠ '>') r
  let r ← litS ">" r
  some ([], r)

/-- `r'<u>([^<]*)</u>'` → `r'\1'` (line 57). -/
def mUPair (l : List Char) : Option (List Char × List Char) := do
  let r ← litS "<u>" l
  let (t, r) := takeW (fun c => c ≠ '<') r
  let r ← litS "</u>" r
  some (t, r)

/-- `r'</?u>'` → `''` (line 58). -/
def mUTag (l : List Char) : Option (List Char × List Char) := do
  let r ← litS "<" l
  let r := optC '/' r
  let r ← litS "u>" r
  some ([], r)

/-- `r'<br\s*/?>'` → `'\n'` (line 61). -/
def mBr (l : List Char) : Option (List Char × List Char) := do
  let r ← litS "<br" l
  let (_, r) := takeW isWS r
  let r := optC '/' r
  let r ← litS ">" r
  some (['\n'], r)

/-- `r'<hr\s*/?>'` → `'\n---\n'` (line 64). -/
def mHr (l : List Char) : Option (List Char × List Char) := do
  let r ← litS "<hr" l
  let (_, r) := takeW isWS r
  let r := optC '/' r
  let r ← litS ">" r
  some ("\n---\n".toList, r)

/-- `r'<span class="syntax-control-label">[^<]*</span>'` → `''` (line 69). -/
def mSpanLabel (l : List Char) : Option (List Char × List Char) := do
  let r ← litS "<span class=\"syntax-control-label\">" l
  let (_, r) := takeW (fun c => c ≠ '<') r
  let r ← litS "</span>" r
  some ([], r)

/-- `r'<a href="[^"]*" class="nimbus-bookmark[^"]*"[^>]*></a>'` → `''`
(line 72). -/
def mNimbusBookmark (l : List Char) : Option (List Char × List Char) := do
  let r ← litS "<a href=\"" l
  let (_, r) := takeW (fun c => c ≠ '"') r
  let r ← litS "\" class=\"nimbus-bookmark" r
  let (_, r) := takeW (fun c => c ≠ '"') r
  let r ← litS "\"" r
  let (_, r) := takeW (fun c => c ≠ '>') r
  let r ← litS "></a>" r
  some ([], r)

/-- `r'<a href="[^"]*" style="display:\s*contents;?"[^>]*></a>'` → `''`
(line 73). -/
def mNimbusContents (l : List Char) : Option (List Char × List Char) := do
  let r ← litS "<a href=\"" l
  let (_, r) := takeW (fun c => c ≠ '"') r
  let r ← litS "\" style=\"display:" r
  let (_, r) := takeW isWS r
  let r ← litS "contents" r
  let r := optC ';' r
  let r ← litS "\"" r
  let (_, r) := takeW (fun c => c ≠ '>') r
  let r ← litS "></a>" r
  some ([], r)

/-- `r'<a\s+href="[^"]*"[^>]*>\s*</a>'` → `''` (line 76, DOTALL). -/
def mEmptyAnchorA (l : List Char) : Option (List Char × List Char) := do
  let r ← litS "<a" l
  let (_, r) ← takeW1 isWS r
  let r ← litS "href=\"" r
  let (_, r) := takeW (fun c => c ≠ '"') r
  let r ← litS "\"" r
  let (_, r) := takeW (fun c => c ≠ '>') r
  let r ← litS ">" r
  let (_, r) := takeW isWS r
  let r ← litS "</a>" r
  some ([], r)

/-- `r'</?table[^>]*>'` → `'\n'` (line 83). -/
def mTableTag (l : List Char) : Option (List Char × List Char) := do
  let r ← litS "<" l
  let r := optC '/' r
  let r ← litS "table" r
  let (_, r) := takeW (fun c => c ≠ '>') r
  let r ← litS ">" r
  some (['\n'], r)

/-- `r'</?thead[^>]*>'` → `''` (line 84). -/
def mTheadTag (l : List Char) : Option (List Char × List Char) := do
  let r ← litS "<" l
  let r := optC '/' r
  let r ← litS "thead" r
  let (_, r) := takeW (fun c => c ≠ '>') r
  let r ← litS ">" r
  some ([], r)

/-- `r'</?tbody[^>]*>'` → `''` (line 85). -/
def mTbodyTag (l : List Char) : Option (List Char × List Char) := do
  let r ← litS "<" l
  let r := optC '/' r
  let r ← litS "tbody" r
  let (_, r) := takeW (fun c => c ≠ '>') r
  let r ← litS ">" r
  some ([], r)

/-- `r'<tr[^>]*>'` → `'\n| '` (line 88). -/
def mTrOpen (l : List Char) : Option (List Char × List Char) := do
  let r ← litS "<tr" l
  let (_, r) := takeW (fun c => c ≠ '>') r
  let r ← litS ">" r
  some ("\n| ".toList, r)

/-- `r'</tr>'` → `' |'` (line 89). -/
def mTrClose (l : List Char) : Option (List Char × List Char) := do
  let r ← litS "</tr>" l
  some (" |".toList, r)

/-- `r'<t[hd][^>]*>'` → `''` (line 92). -/
def mCellOpen (l : List Char) : Option (List Char × List Char) := do
  let r ← litS "<t" l
  match r with
  | c :: r2 =>
    if c = 'h' || c = 'd' then do
      let (_, r3) := takeW (fun c => c ≠ '>') r2
      let r4 ← litS ">" r3
      some ([], r4)
    else none
  | [] => none

/-- `r'</t[hd]>'` → `' | '` (line 93). -/
def mCellClose (l : List Char) : Option (List Char × List Char) := do
  let r ← litS "</t" l
  match r with
  | c :: r2 =>
    if c = 'h' || c = 'd' then do
      let r3 ← litS ">" r2
      some (" | ".toList, r3)
    else none
  | [] => none

/-- `r'<span[^>]*>\s*</span>'` → `''` (line 98). -/
def mSpanEmpty (l : List Char) : Option (List Char × List Char) := do
  let r ← litS "<span" l
  let (_, r) := takeW (fun c => c ≠ '>') r
  let r ← litS ">" r
  let (_, r) := takeW isWS r
  let r ← litS "</span>" r
  some ([], r)

/-- `r'<span[^>]*>([^<]*)</span>'` → `r'\1'` (line 102). -/
def mSpanUnwrap (l : List Char) : Option (List Char × List Char) := do
  let r ← litS "<span" l
  let (_, r) := takeW (fun c => c ≠ '>') r
  let r ← litS ">" r
  let (t, r) := takeW (fun c => c ≠ '<') r
  let r ← litS "</span>" r
  some (t, r)

/-- `r'</?span[^>]*>'` → `''` (line 105). -/
def mSpanTag (l : List Char) : Option (List Char × List Char) := do
  let r ← litS "<" l
  let r := optC '/' r
  let r ← litS "span" r
  let (_, r) := takeW (fun c => c ≠ '>') r
  let r ← litS ">" r
  some ([], r)

/-- `r'<div[^>]*>([^<]*)</div>'` → `r'\1\n'` (line 108). -/
def mDivUnwrap (l : List Char) : Option (List Char × List Char) := do
  let r ← litS "<div" l
  let (_, r) := takeW (fun c => c ≠ '>') r
  let r ← litS ">" r
  let (t, r) := takeW (fun c => c ≠ '<') r
  let r ← litS "</div>" r
  some (t ++ ['\n'], r)

/-- `r'</?div[^>]*>'` → `'\n'` (line 109). -/
def mDivTag (l : List Char) : Option (List Char × List Char) := do
  let r ← litS "<" l
  let r := optC '/' r
  let r ← litS "div" r
  let (_, r) := takeW (fun c => c ≠ '>') r
  let r ← litS ">" r
  some (['\n'], r)

/-- `r'<p[^>]*>([^<]*)</p>'` → `r'\1\n\n'` (line 112). -/
def mPUnwrap (l : List Char) : Option (List Char × List Char) := do
  let r ← litS "<p" l
  let (_, r) := takeW (fun c => c ≠ '>') r
  let r ← litS ">" r
  let (t, r) := takeW (fun c => c ≠ '<') r
  let r ← litS "</p>" r
  some (t ++ ['\n', '\n'], r)

/-- `r'</?p[^>]*>'` → `'\n'` (line 113). -/
def mPTag (l : List Char) : Option (List Char × List Char) := do
  let r ← litS "<" l
  let r := optC '/' r
  let r ← litS "p" r
  let (_, r) := takeW (fun c => c ≠ '>') r
  let r ← litS ">" r
  some (['\n'], r)

/-- `r'<a\s+href="([^"]*)"[^>]*>([^<]+)</a>'` → `r'[\2](\1)'` (line 116). -/
def mALink (l : List Char) : Option (List Char × List Char) := do
  let r ← litS "<a" l
  let (_, r) ← takeW1 isWS r
  let r ← litS "href=\"" r
  let (href, r) := takeW (fun c => c ≠ '"') r
  let r ← litS "\"" r
  let (_, r) := takeW (fun c => c ≠ '>') r
  let r ← litS ">" r
  let (t, r) ← takeW1 (fun c => c ≠ '<') r
  let r ← litS "</a>" r
  some ('[' :: t ++ "](".toList ++ href ++ [')'], r)

/-- `r'<a[^>]*>\s*</a>'` → `''` (line 119). -/
def mEmptyAnchorB (l : List Char) : Option (List Char × List Char) := do
  let r ← litS "<a" l
  let (_, r) := takeW (fun c => c ≠ '>') r
  let r ← litS ">" r
  let (_, r) := takeW isWS r
  let r ← litS "</a>" r
  some ([], r)

/-- `r'<img[^>]*/?\s*>'` → `''` (line 122). -/
def mImgOrphan (l : List Char) : Option (List Char × List Char) := do
  let r ← litS "<img" l
  let (_, r) := takeW (fun c => c ≠ '>') r
  let r ← litS ">" r
  some ([], r)

/-- `r'!\[\]\(data:image/svg\+xml;base64,[^)]+\)'` → `''` (line 127). -/
def mB64Svg (l : List Char) : Option (List Char × List Char) := do
  let r ← litS "![](data:image/svg+xml;base64," l
  let (_, r) ← takeW1 (fun c => c ≠ ')') r
  let r ← litS ")" r
  some ([], r)

/-- `r'!\[\]\(data:image/[^)]+\)'` → `''` (line 128). -/
def mB64Any (l : List Char) : Option (List Char × List Char) := do
  let r ← litS "![](data:image/" l
  let (_, r) ← takeW1 (fun c => c ≠ ')') r
  let r ← litS ")" r
  some ([], r)

/-- `r'\|\s*\|\s*\|'` → `'|'` (line 133). -/
def mPipe3 (l : List Char) : Option (List Char × List Char) := do
  let r ← litS "|" l
  let (_, r) := takeW isWS r
  let r ← litS "|" r
  let (_, r) := takeW isWS r
  let r ← litS "|" r
  some (['|'], r)

/-- `r'\|\s*\|'` → `'|'` (line 134). -/
def mPipe2 (l : List Char) : Option (List Char × List Char) := do
  let r ← litS "|" l
  let (_, r) := takeW isWS r
  let r ← litS "|" r
  some (['|'], r)

/-- `r'\n\s*\|\s*\|\s*\n'` → `'\n'` (line 137). -/
def mPipeLine2 (l : List Char) : Option (List Char × List Char) :=
  match litS "\n" l with
  | none => none
  | some r =>
    match litS "|" (r.dropWhile isWS) with
    | none => none
    | some r2 =>
      match litS "|" (r2.dropWhile isWS) with
      | none => none
      | some r3 =>
        match takeToLastNL r3 with
        | none => none
        | some r4 => some (['\n'], r4)

/-- `r'\n\s*\|\s*\n'` → `'\n'` (line 138). -/
def mPipeLine1 (l : List Char) : Option (List Char × List Char) :=
  match litS "\n" l with
  | none => none
  | some r =>
    match litS "|" (r.dropWhile isWS) with
    | none => none
    | some r2 =>
      match takeToLastNL r2 with
      | none => none
      | some r3 => some (['\n'], r3)

/-- `r'\n{4,}'` → `'\n\n\n'` (line 143). -/
def mNL4 (l : List Char) : Option (List Char × List Char) :=
  let run := l.takeWhile isNL
  if 4 ≤ run.length then some (['\n', '\n', '\n'], l.dropWhile isNL)
  else none

/-- `for _ in range(n): x = f(x)`. -/
def applyN : Nat → (α → α) → α → α
  | 0, _, a => a
  | n + 1, f, a => applyN n f (f a)

/-- Python `body.split('\n')`. -/
def splitNL : List Char → List (List Char)
  | [] => [[]]
  | c :: cs =>
    if c = '\n' then [] :: splitNL cs
    else
      match splitNL cs with
      | [] => [[c]]
      | h :: t => (c :: h) :: t

/-- Python `'\n'.join(lines)`. -/
def joinNL : List (List Char) → List Char
  | [] => []
  | x :: xs =>
    match xs with
    | [] => x
    | _ :: _ => x ++ '\n' :: joinNL xs

/-- Python `line.rstrip()` (ASCII whitespace). -/
def pyRstrip (l : List Char) : List Char :=
  (l.reverse.dropWhile isWS).reverse

/-- Python `body.lstrip('\n')`. -/
def lstripNL (l : List Char) : List Char := l.dropWhile isNL

/-- Python `body.rstrip('\n')`. -/
def rstripNL (l : List Char) : List Char :=
  (l.reverse.dropWhile isNL).reverse

/-- Lines 27-138 of `clean_markdown`: every substitution rule applied to
the body, in source order, up to (and excluding) the blank-line collapse. -/
def cleanTags (b : List Char) : List Char :=
  let b := reSub mLinkedImage b
  let b := reSub mImgTag b
  let b := applyN 3 (fun x => reSub mB (reSub mStrong x)) b
  let b := applyN 3 (fun x => reSub mI (reSub mEm x)) b
  let b := applyN 3 (reSub mCode) b
  let b := reSub mCodeTag b
  let b := reSub mUPair b
  let b := reSub mUTag b
  let b := reSub mBr b
  let b := reSub mHr b
  let b := reSub mSpanLabel b
  let b := reSub mNimbusBookmark b
  let b := reSub mNimbusContents b
  let b := reSub mEmptyAnchorA b
  let b := reSub mTableTag b
  let b := reSub mTheadTag b
  let b := reSub mTbodyTag b
  let b := reSub mTrOpen b
  let b := reSub mTrClose b
  let b := reSub mCellOpen b
  let b := reSub mCellClose b
  let b := reSub mSpanEmpty b
  let b := applyN 5 (reSub mSpanUnwrap) b
  let b := reSub mSpanTag b
  let b := reSub mDivUnwrap b
  let b := reSub mDivTag b
  let b := reSub mPUnwrap b
  let b := reSub mPTag b
  let b := reSub mALink b
  let b := reSub mEmptyAnchorB b
  let b := reSub mImgOrphan b
  let b := reSub mB64Svg b
  let b := reSub mB64Any b
  let b := reSub mPipe3 b
  let b := reSub mPipe2 b
  let b := reSub mPipeLine2 b
  let b := reSub mPipeLine1 b
  b

/-- Lines 146-154: per-line rstrip, strip leading blank lines, ensure a
single trailing newline. -/
def lineStage (b : List Char) : List Char :=
  let b := joinNL ((splitNL b).map pyRstrip)
  let b := lstripNL b
  rstripNL b ++ ['\n']

/-- The whole body transformation of `clean_markdown` (everything applied
after the frontmatter was set aside). -/
def cleanBody (b : List Char) : List Char :=
  lineStage (reSub mNL4 (cleanTags b))

/-- First occurrence split: `splitFirst sep l = some (a, b)` iff
`l = a ++ sep ++ b` at the leftmost occurrence of `sep`. -/
def splitFirst (sep : List Char) : List Char → Option (List Char × List Char)
  | [] =>
    match lit sep [] with
    | some r => some ([], r)
    | none => none
  | c :: cs =>
    match lit sep (c :: cs) with
    | some r => some ([], r)
    | none =>
      match splitFirst sep cs with
      | some (a, b) => some (c :: a, b)
      | none => none

/-- Lines 16-23: frontmatter recognition.  `content.startswith("---")` and
`content.split("---", 2)` yielding at least 3 parts is exactly: the text
after the leading `---` contains another `---`; the result is
(middle part, rest). -/
def extractFM (content : List Char) : Option (List Char × List Char) :=
  match litS "---" content with
  | none => none
  | some afterFirst =>
    match splitFirst "---".toList afterFirst with
    | some (mid, rest) => some (mid, rest)
    | none => none

/-- The frontmatter string rebuilt on line 22: `f"---{parts[1]}---\n"`. -/
def fmChars (mid : List Char) : List Char :=
  "---".toList ++ mid ++ "---\n".toList

/-- `clean_markdown` of `scripts/cleanup-obsidian.py`, list level. -/
def cleanDoc (content : List Char) : List Char :=
  match extractFM content with
  | some (mid, rest) => fmChars mid ++ cleanBody rest
  | none => cleanBody content

/-- `clean_markdown` at `String` level. -/
def clean_markdown (content : String) : String :=
  String.mk (cleanDoc content.data)

/-- Outcome of `process_file` on one file: the returned triple
`(changed, message, changes)`, whether a write happened, and the file's
content afterwards. -/
structure FileResult where
  changed : Bool
  message : String
  changes : Int
  wrote : Bool
  content : String
deriving DecidableEq

/-- `process_file` (lines 159-178).  The transform is passed as a fallible
function: `Except.error e` models an exception raised while producing the
cleaned content, which the source catches and reports as
`(False, f"Error processing {md_file}: {e}", -1)`, leaving the file as it
was.  On success the file is rewritten only when the result differs. -/
def process_file (clean : String → Except String String)
    (name content : String) : FileResult :=
  match clean content with
  | Except.ok cleaned =>
    if cleaned = content then
      ⟨false, "", 0, false, content⟩
    else
      ⟨true, name, (((cleaned.length : Int) - (content.length : Int)).natAbs : Int),
        true, cleaned⟩
  | Except.error e =>
    ⟨false, "Error processing " ++ name ++ ": " ++ e, -1, false, content⟩

/-- The non-fallible transform actually used by the cleanup script. -/
def clean_ok (s : String) : Except String String := Except.ok (clean_markdown s)

/-- The per-file results of `main` (lines 204-208): one `process_file`
outcome per discovered file. -/
def cleanup_results (clean : String → Except String String)
    (files : List (String × String)) : List FileResult :=
  files.map fun nc => process_file clean nc.1 nc.2

/-- The cleanup process exit code: `sys.exit(1)` happens only for a wrong
argument count (line 184) or a missing vault path (line 190); the
processing loop never exits, so a completed batch ends with code 0. -/
def cleanup_exit (argv : List String) (pathExists : Bool) : Nat :=
  if argv.length ≠ 2 then 1
  else if pathExists = false then 1
  else 0

/-- Converter argument check (lines 241-243 of
`scripts/convert-to-obsidian.py`): `some 1` means the process exits with
code 1 before any work; `none` means it proceeds. -/
def converter_arg_exit (argv : List String) : Option Nat :=
  if argv.length < 3 then some 1 else none

/-- Decimal digit character, as produced by Python `str(int)`. -/
def digitChar (d : Nat) : Char := Char.ofNat (48 + d)

/-- Decimal digits of `n` (fuel-driven; `fuel > n` suffices). -/
def natDigitsF : Nat → Nat → List Char
  | 0, _ => []
  | fuel + 1, n =>
    if n < 10 then [digitChar n]
    else natDigitsF fuel (n / 10) ++ [digitChar (n % 10)]

/-- Python `str(n)` for a natural number. -/
def natToStr (n : Nat) : String := String.mk (natDigitsF (n + 1) n)

/-- The filename tried at loop counter `k` in `process_note` (lines
183-190): `f"{safe_title}.md"` first, then `f"{base_name}-{counter}.md"`. -/
def candidate (base : String) (k : Nat) : String :=
  if k = 0 then base ++ ".md" else base ++ "-" ++ natToStr k ++ ".md"

/-- The `while md_file.exists()` loop, fuel-driven; trying one more
candidate than there are existing files always finds a free name. -/
def allocLoop (base : String) (existing : List String) : Nat → Nat → String
  | 0, k => candidate base k
  | fuel + 1, k =>
    if candidate base k ∈ existing then allocLoop base existing fuel (k + 1)
    else candidate base k

/-- Output-name allocation of `process_note` under `_file_lock`:
the first candidate name not present in the destination folder. -/
def allocate (base : String) (existing : List String) : String :=
  allocLoop base existing (existing.length + 1) 0

/-- Length of the trailing newline run ("ends with exactly one trailing
newline" is `trailNLCount = 1`). -/
def trailNLCount (l : List Char) : Nat := (l.reverse.takeWhile isNL).length

/-- The first four characters are newlines. -/
def nlRun4At (l : List Char) : Bool :=
  l.take 4 == List.replicate 4 '\n'

/-- Some position starts a run of four (or more) consecutive newlines —
exactly the texts on which the `r'\n{4,}'` collapse rule can fire. -/
def hasRun4 : List Char → Bool
  | [] => false
  | c :: cs => nlRun4At (c :: cs) || hasRun4 cs

/-- Characters on which no substitution rule of the cleanup pipeline can
trigger: not `<` (every tag rule), not `|` (table-delimiter rules), not
`!` (base64 rules), not `-` (frontmatter delimiter), and no whitespace
other than `'\n'` (so per-line `rstrip` is inert). -/
def GoodChar (c : Char) : Prop :=
  c ≠ '<' ∧ c ≠ '|' ∧ c ≠ '!' ∧ c ≠ '-' ∧ (isWS c = true → c = '\n')

instance (c : Char) : Decidable (GoodChar c) := by
  unfold GoodChar; infer_instance

/-! ### Supporting lemmas -/

theorem lit_eq : ∀ (p l r : List Char), lit p l = some r → l = p ++ r := by
  intro p
  induction p with
  | nil => intro l r h; simp [lit] at h; simp [h]
  | cons c ps ih =>
    intro l r h
    cases l with
    | nil => simp [lit] at h
    | cons x xs =>
      simp only [lit] at h
      split at h
      · rename_i hx
        have := ih xs r h
        simp [hx, this]
      · exact absurd h (by simp)

theorem splitFirst_eq : ∀ (sep l a b : List Char),
    splitFirst sep l = some (a, b) → l = a ++ sep ++ b := by
  intro sep l
  induction l with
  | nil =>
    intro a b h
    simp only [splitFirst] at h
    cases hl : lit sep [] with
    | none => rw [hl] at h; exact absurd h (by simp)
    | some r =>
      rw [hl] at h
      have he := lit_eq sep [] r hl
      simp at h
      obtain ⟨ha, hb⟩ := h
      subst ha; subst hb
      simp [← he]
  | cons c cs ih =>
    intro a b h
    simp only [splitFirst] at h
    cases hl : lit sep (c :: cs) with
    | some r =>
      rw [hl] at h
      have he := lit_eq sep (c :: cs) r hl
      simp at h
      obtain ⟨ha, hb⟩ := h
      subst ha; subst hb
      simpa using he
    | none =>
      rw [hl] at h
      cases hs : splitFirst sep cs with
      | none => rw [hs] at h; exact absurd h (by simp)
      | some ab =>
        rw [hs] at h
        obtain ⟨a2, b2⟩ := ab
        have := ih a2 b2 hs
        simp at h
        obtain ⟨ha, hb⟩ := h
        subst ha; subst hb
        simp [this]

theorem extractFM_decomp (l mid rest : List Char)
    (h : extractFM l = some (mid, rest)) :
    l = "---".toList ++ mid ++ "---".toList ++ rest := by
  unfold extractFM at h
  cases hl : litS "---" l with
  | none => rw [hl] at h; exact absurd h (by simp)
  | some af =>
    rw [hl] at h
    dsimp only at h
    cases hs : splitFirst "---".toList af with
    | none => rw [hs] at h; exact absurd h (by simp)
    | some ab =>
      rw [hs] at h
      obtain ⟨a2, b2⟩ := ab
      simp at h
      obtain ⟨ha, hb⟩ := h
      have h1 : l = "---".toList ++ af := lit_eq _ _ _ hl
      have h2 : af = a2 ++ "---".toList ++ b2 := splitFirst_eq _ _ _ _ hs
      simp [h1, h2, ← ha, ← hb]

theorem takeWhile_dropWhile_nil (p : Char → Bool) :
    ∀ l : List Char, (l.dropWhile p).takeWhile p = [] := by
  intro l
  induction l with
  | nil => rfl
  | cons c cs ih =>
    cases hc : p c with
    | true => simp [List.dropWhile_cons, hc, ih]
    | false => simp [List.dropWhile_cons, List.takeWhile_cons, hc]

theorem trailNLCount_rstrip_append (x : List Char) :
    trailNLCount (rstripNL x ++ ['\n']) = 1 := by
  unfold trailNLCount rstripNL
  rw [List.reverse_append]
  simp only [List.reverse_cons, List.reverse_nil, List.nil_append,
    List.singleton_append, List.reverse_reverse]
  rw [List.takeWhile_cons]
  simp [isNL, takeWhile_dropWhile_nil]

theorem cleanBody_shape (b : List Char) :
    cleanBody b =
      rstripNL (lstripNL (joinNL (((splitNL (reSub mNL4 (cleanTags b)))).map pyRstrip)))
        ++ ['\n'] := rfl

theorem trailNLCount_cleanBody (b : List Char) : trailNLCount (cleanBody b) = 1 := by
  rw [cleanBody_shape]
  exact trailNLCount_rstrip_append _

/-! ### Claim theorems -/

/-- C1 (counterexample): the cleanup Rule Pipeline is not idempotent.  For
the input `"a\n \n \n \n \nb"` the first pass only empties the
space-only lines (the blank-line collapse sees no newline run), and the
second pass then collapses the newly created run of five newlines, so the
second application changes the first pass's output. -/
theorem second_pass_shrinks_blank_lines :
    clean_markdown (clean_markdown "a\n \n \n \n \nb") ≠
      clean_markdown "a\n \n \n \n \nb" := by decide

/-- C2 (counterexample): for the input `<b><i>hi</i></b>` the pipeline
does not produce plain nested emphasis: the bold passes all run before the
italic passes, so the outer `<b>` never matches while the inner `<i>` tag
is present, and the output keeps residual `<b>` tags. -/
theorem nested_bold_italic_leaves_b_tags :
    clean_markdown "<b><i>hi</i></b>" = "<b>*hi*</b>\n" ∧
    '<' ∈ (clean_markdown "<b><i>hi</i></b>").data := by decide

/-- C2 (amended): nested-emphasis convergence across the bounded passes
holds only when the bold tag is the inner one — `<i><b>hi</b></i>` resolves
fully to `***hi***`; the reversed nesting `<b><i>hi</i></b>` leaves the
outer bold tags and yields `<b>*hi*</b>`. -/
theorem nested_emphasis_order_dependent :
    clean_markdown "<i><b>hi</b></i>" = "***hi***\n" ∧
    clean_markdown "<b><i>hi</i></b>" = "<b>*hi*</b>\n" := by decide

/-- C3: when the input starts with a recognized `---`-delimited
frontmatter block, `clean_markdown` returns that block verbatim (followed
by the appended newline of line 22) with the body pipeline applied only to
the remainder; in particular the block is byte-for-byte a prefix of both
the input and the output. -/
theorem frontmatter_preserved_verbatim (content : String) (mid rest : List Char)
    (h : extractFM content.data = some (mid, rest)) :
    clean_markdown content =
      String.mk ("---".toList ++ mid ++ "---\n".toList ++ cleanBody rest) ∧
    (∃ t, content.data = ("---".toList ++ mid ++ "---".toList) ++ t) ∧
    (∃ u, (clean_markdown content).data =
      ("---".toList ++ mid ++ "---".toList) ++ u) := by
  have hdecomp := extractFM_decomp content.data mid rest h
  refine ⟨?_, ⟨rest, by simpa using hdecomp⟩, ?_⟩
  · unfold clean_markdown cleanDoc
    rw [h]
    simp [fmChars]
  · refine ⟨'\n' :: cleanBody rest, ?_⟩
    unfold clean_markdown cleanDoc
    rw [h]
    simp [fmChars]

theorem frontmatter_preserved_verbatim_witness :
    clean_markdown "---t---x" =
      String.mk ("---".toList ++ ['t'] ++ "---\n".toList ++ cleanBody ['x']) ∧
    (∃ t, ("---t---x" : String).data = ("---".toList ++ ['t'] ++ "---".toList) ++ t) ∧
    (∃ u, (clean_markdown "---t---x").data =
      ("---".toList ++ ['t'] ++ "---".toList) ++ u) :=
  frontmatter_preserved_verbatim "---t---x" ['t'] ['x'] (by decide)

/-- C4: a per-file transform failure is recovered locally: the batch still
produces one result per file (each file's `process_file` outcome is in the
batch results, independent of the others), the failing file is reported
with the `Error processing` message and the `-1` sentinel while its
content is left byte-identical, and the process exit code is 0 whenever
setup succeeded (the processing loop never exits). -/
theorem batch_error_recovery (clean : String → Except String String)
    (argv : List String) (pathExists : Bool)
    (files : List (String × String)) (name content e : String)
    (hargv : argv.length = 2) (hpath : pathExists = true)
    (hmem : (name, content) ∈ files) (he : clean content = Except.error e) :
    cleanup_exit argv pathExists = 0 ∧
    (cleanup_results clean files).length = files.length ∧
    process_file clean name content =
      ⟨false, "Error processing " ++ name ++ ": " ++ e, -1, false, content⟩ ∧
    process_file clean name content ∈ cleanup_results clean files ∧
    (∀ nc ∈ files, process_file clean nc.1 nc.2 ∈ cleanup_results clean files) := by
  refine ⟨?_, ?_, ?_, ?_, ?_⟩
  · simp [cleanup_exit, hargv, hpath]
  · simp [cleanup_results]
  · simp [process_file, he]
  · exact List.mem_map_of_mem (fun nc => process_file clean nc.1 nc.2) hmem
  · intro nc hnc
    exact List.mem_map_of_mem _ hnc

theorem batch_error_recovery_witness :
    cleanup_exit ["cleanup-obsidian.py", "vault"] true = 0 ∧
    (cleanup_results (fun s => if s = "bad" then Except.error "boom" else Except.ok s)
      [("good.md", "ok"), ("bad.md", "bad")]).length =
      ([("good.md", "ok"), ("bad.md", "bad")] : List (String × String)).length ∧
    process_file (fun s => if s = "bad" then Except.error "boom" else Except.ok s)
      "bad.md" "bad" =
      ⟨false, "Error processing " ++ "bad.md" ++ ": " ++ "boom", -1, false, "bad"⟩ ∧
    process_file (fun s => if s = "bad" then Except.error "boom" else Except.ok s)
      "bad.md" "bad" ∈
      cleanup_results (fun s => if s = "bad" then Except.error "boom" else Except.ok s)
        [("good.md", "ok"), ("bad.md", "bad")] ∧
    (∀ nc ∈ ([("good.md", "ok"), ("bad.md", "bad")] : List (String × String)),
      process_file (fun s => if s = "bad" then Except.error "boom" else Except.ok s)
        nc.1 nc.2 ∈
        cleanup_results (fun s => if s = "bad" then Except.error "boom" else Except.ok s)
          [("good.md", "ok"), ("bad.md", "bad")]) :=
  batch_error_recovery
    (fun s => if s = "bad" then Except.error "boom" else Except.ok s)
    ["cleanup-obsidian.py", "vault"] true
    [("good.md", "ok"), ("bad.md", "bad")] "bad.md" "bad" "boom"
    (by decide) rfl (by decide) rfl

/-- C5: no-op detection.  If the pipeline leaves a file's content
unchanged, `process_file` performs no write and reports the file as
unchanged (`(False, "", 0)`); conversely a write happens only when the
pipeline result differs from the input. -/
theorem noop_detection (name T : String) :
    (clean_markdown T = T →
      process_file clean_ok name T = ⟨false, "", 0, false, T⟩) ∧
    ((process_file clean_ok name T).wrote = true → clean_markdown T ≠ T) := by
  constructor
  · intro h
    simp [process_file, clean_ok, h]
  · intro hw heq
    simp [process_file, clean_ok, heq] at hw

theorem noop_detection_witness :
    process_file clean_ok "note.md" "hello\n" =
      ⟨false, "", 0, false, "hello\n"⟩ :=
  (noop_detection "note.md" "hello\n").1 (by decide)

/-- C6 (counterexample): the output of `clean_markdown` does not always
end with exactly one trailing newline: when a frontmatter block is
recognized and the body cleans to empty, the frontmatter's appended
newline is followed by the body's trailing newline, giving two. -/
theorem frontmatter_empty_body_double_newline :
    clean_markdown "---a---" = "---a---\n\n" ∧
    trailNLCount (clean_markdown "---a---").data ≠ 1 := by decide

/-- C6 (amended): five consecutive blank lines in the body collapse to
exactly two (concrete case), and the output ends with exactly one
trailing newline for every input on which no frontmatter block is
recognized (with a recognized frontmatter block and an empty cleaned
body, the output instead ends with the frontmatter newline plus the
body's newline). -/
theorem blank_line_collapse_and_trailing_newline :
    clean_markdown "a\n\n\n\n\n\nb" = "a\n\n\nb\n" ∧
    ∀ T : String, extractFM T.data = none →
      trailNLCount (clean_markdown T).data = 1 := by
  constructor
  · decide
  · intro T h
    unfold clean_markdown cleanDoc
    rw [h]
    exact trailNLCount_cleanBody _

theorem blank_line_collapse_and_trailing_newline_witness :
    trailNLCount (clean_markdown "x").data = 1 :=
  blank_line_collapse_and_trailing_newline.2 "x" (by decide)

/-- C8: ordering correctness for compound structures: the linked-image
rule fires before the anchor or image is independently simplified, so
`<a href="x.png"><img src="x.png"/></a>` becomes `![](x.png)` (plus the
pipeline's single trailing newline). -/
theorem linked_image_compound_rule :
    clean_markdown "<a href=\"x.png\"><img src=\"x.png\"/></a>" =
      "![](x.png)\n" := by decide

/-- C9 (counterexample): the converter does not exit for every wrong
argument count: with three positional arguments (four `argv` entries) the
check `len(sys.argv) < 3` passes and the program proceeds. -/
theorem three_args_do_not_exit :
    converter_arg_exit ["convert-to-obsidian.py", "input.zip", "out", "extra"] =
      none ∧
    (["convert-to-obsidian.py", "input.zip", "out", "extra"] : List String).length ≠ 3 := by
  decide

/-- C9 (amended): the converter exits with code 1 before doing any work
exactly when fewer than two positional arguments are supplied
(`len(sys.argv) < 3`); surplus arguments are ignored. -/
theorem arg_exit_iff_too_few (argv : List String) :
    converter_arg_exit argv = some 1 ↔ argv.length < 3 := by
  unfold converter_arg_exit
  split <;> simp_all

/-- C10: the pipeline maps the empty string to a single newline, so an
empty file is never a no-op: `process_file` classifies it as modified and
rewrites it to exactly one newline. -/
theorem empty_input_rewritten_to_newline :
    clean_markdown "" = "\n" ∧
    process_file clean_ok "note.md" "" = ⟨true, "note.md", 1, true, "\n"⟩ := by
  decide

theorem digitChar_toNat (d : Nat) (hd : d < 10) : (digitChar d).toNat = 48 + d := by
  interval_cases d <;> decide

theorem digitChar_inj (d1 d2 : Nat) (h1 : d1 < 10) (h2 : d2 < 10)
    (h : digitChar d1 = digitChar d2) : d1 = d2 := by
  have := congrArg Char.toNat h
  rw [digitChar_toNat d1 h1, digitChar_toNat d2 h2] at this
  omega

theorem natDigitsF_fuel : ∀ (f1 : Nat), ∀ (f2 n : Nat), n < f1 → n < f2 →
    natDigitsF f1 n = natDigitsF f2 n := by
  intro f1
  induction f1 with
  | zero => intro f2 n h1 _; omega
  | succ g1 ih =>
    intro f2 n h1 h2
    cases f2 with
    | zero => omega
    | succ g2 =>
      by_cases h10 : n < 10
      · simp [natDigitsF, h10]
      · have hdiv : n / 10 < n := Nat.div_lt_self (by omega) (by omega)
        simp only [natDigitsF, h10, if_false]
        rw [ih g2 (n / 10) (by omega) (by omega)]

theorem natDigitsF_ne_nil : ∀ (f n : Nat), n < f → natDigitsF f n ≠ [] := by
  intro f n h
  cases f with
  | zero => omega
  | succ g =>
    by_cases h10 : n < 10
    · simp [natDigitsF, h10]
    · simp [natDigitsF, h10]

theorem natDigits_canon_inj : ∀ (m n : Nat),
    natDigitsF (m + 1) m = natDigitsF (n + 1) n → m = n := by
  intro m
  induction m using Nat.strong_induction_on with
  | _ m ih =>
    intro n h
    by_cases hm : m < 10 <;> by_cases hn : n < 10
    · simp only [natDigitsF, hm, hn, if_true] at h
      simp at h
      exact digitChar_inj m n hm hn h
    · exfalso
      simp only [natDigitsF, hm, hn, if_true, if_false] at h
      have hne := natDigitsF_ne_nil n (n / 10)
        (Nat.div_lt_self (by omega) (by omega))
      have hlen := congrArg List.length h
      rw [List.length_append, List.length_singleton, List.length_singleton] at hlen
      exact hne (List.length_eq_zero.mp (by omega))
    · exfalso
      simp only [natDigitsF, hm, hn, if_true, if_false] at h
      have hne := natDigitsF_ne_nil m (m / 10)
        (Nat.div_lt_self (by omega) (by omega))
      have hlen := congrArg List.length h
      rw [List.length_append, List.length_singleton, List.length_singleton] at hlen
      exact hne (List.length_eq_zero.mp (by omega))
    · simp only [natDigitsF, hm, hn, if_false] at h
      have hrev := congrArg List.reverse h
      simp only [List.reverse_append, List.reverse_cons, List.reverse_nil,
        List.nil_append, List.singleton_append] at hrev
      have hhead : digitChar (m % 10) = digitChar (n % 10) := by
        exact List.head_eq_of_cons_eq hrev
      have htail := List.tail_eq_of_cons_eq hrev
      have hmod : m % 10 = n % 10 :=
        digitChar_inj _ _ (Nat.mod_lt m (by omega)) (Nat.mod_lt n (by omega)) hhead
      have hdigits : natDigitsF m (m / 10) = natDigitsF n (n / 10) := by
        have := congrArg List.reverse htail
        simpa [List.reverse_reverse] using this
      have hmdiv : m / 10 < m := Nat.div_lt_self (by omega) (by omega)
      have hndiv : n / 10 < n := Nat.div_lt_self (by omega) (by omega)
      have hcanon : natDigitsF (m / 10 + 1) (m / 10) = natDigitsF (n / 10 + 1) (n / 10) := by
        rw [← natDigitsF_fuel m (m / 10 + 1) (m / 10) hmdiv (by omega),
          ← natDigitsF_fuel n (n / 10 + 1) (n / 10) hndiv (by omega)]
        exact hdigits
      have hdiv := ih (m / 10) hmdiv (n / 10) hcanon
      omega

theorem natToStr_inj (m n : Nat) (h : natToStr m = natToStr n) : m = n := by
  unfold natToStr at h
  have : natDigitsF (m + 1) m = natDigitsF (n + 1) n := by
    have := congrArg String.data h
    simpa using this
  exact natDigits_canon_inj m n this

theorem natToStr_length_pos (n : Nat) : 0 < (natToStr n).length := by
  unfold natToStr
  have hne := natDigitsF_ne_nil (n + 1) n (by omega)
  have : (String.mk (natDigitsF (n + 1) n)).length = (natDigitsF (n + 1) n).length := rfl
  rw [this]
  exact List.length_pos.mpr hne

theorem candidate_inj (base : String) : Function.Injective (candidate base) := by
  intro j k h
  unfold candidate at h
  by_cases hj : j = 0 <;> by_cases hk : k = 0
  · omega
  · exfalso
    simp only [hj, hk, if_true, if_false] at h
    have := congrArg String.length h
    simp only [String.length_append] at this
    have := natToStr_length_pos k
    omega
  · exfalso
    simp only [hj, hk, if_true, if_false] at h
    have := congrArg String.length h
    simp only [String.length_append] at this
    have := natToStr_length_pos j
    omega
  · simp only [hj, hk, if_false] at h
    have hd := congrArg String.data h
    simp only [String.data_append] at hd
    have hd2 : base.data ++ ['-'] ++ (natToStr j).data =
        base.data ++ ['-'] ++ (natToStr k).data :=
      List.append_cancel_right hd
    have hd3 : (natToStr j).data = (natToStr k).data :=
      List.append_cancel_left hd2
    have : natToStr j = natToStr k := by
      apply String.ext
      exact hd3
    exact natToStr_inj j k this

theorem allocLoop_mem : ∀ (fuel : Nat) (base : String) (existing : List String)
    (k : Nat), allocLoop base existing fuel k ∈ existing →
    ∀ j ≤ fuel, candidate base (k + j) ∈ existing := by
  intro fuel
  induction fuel with
  | zero =>
    intro base existing k h j hj
    have : j = 0 := by omega
    subst this
    simpa [allocLoop] using h
  | succ g ih =>
    intro base existing k h j hj
    by_cases hc : candidate base k ∈ existing
    · simp only [allocLoop, hc, if_true] at h
      cases j with
      | zero => simpa using hc
      | succ j2 =>
        have := ih base existing (k + 1) h j2 (by omega)
        have heq : k + 1 + j2 = k + (j2 + 1) := by omega
        rwa [heq] at this
    · rw [show allocLoop base existing (g + 1) k =
          if candidate base k ∈ existing then allocLoop base existing g (k + 1)
          else candidate base k from rfl, if_neg hc] at h
      exact absurd h hc

theorem allocate_not_mem (base : String) (existing : List String) :
    allocate base existing ∉ existing := by
  intro hmem
  have hall := allocLoop_mem (existing.length + 1) base existing 0 hmem
  have hsub : ∀ x ∈ (List.range (existing.length + 2)).map (candidate base),
      x ∈ existing := by
    intro x hx
    obtain ⟨j, hj, hxe⟩ := List.mem_map.mp hx
    have hj2 : j ≤ existing.length + 1 := by
      have := List.mem_range.mp hj
      omega
    rw [← hxe]
    simpa using hall j hj2
  have hnodup : ((List.range (existing.length + 2)).map (candidate base)).Nodup :=
    (List.nodup_range _).map (candidate_inj base)
  have hcard1 : ((List.range (existing.length + 2)).map (candidate base)).toFinset.card =
      existing.length + 2 := by
    rw [List.toFinset_card_of_nodup hnodup]
    simp
  have hsubf : ((List.range (existing.length + 2)).map (candidate base)).toFinset ⊆
      existing.toFinset := by
    intro x hx
    rw [List.mem_toFinset] at hx ⊢
    exact hsub x hx
  have hcard2 := Finset.card_le_card hsubf
  have hcard3 := existing.toFinset_card_le
  omega

/-- C7: output-name allocation in `process_note`.  The allocated name is
never one that already exists in the destination folder (so no existing
file is overwritten by the reservation), and collisions are resolved by
the deterministic incrementing suffix: with `base.md` taken by a first
note, the second allocation returns `base-1.md`. -/
theorem allocation_fresh_and_incrementing :
    (∀ (base : String) (existing : List String),
      allocate base existing ∉ existing) ∧
    (∀ (base : String) (existing : List String),
      candidate base 0 ∉ existing → candidate base 1 ∉ existing →
      allocate base existing = candidate base 0 ∧
      allocate base (candidate base 0 :: existing) = candidate base 1) := by
  constructor
  · exact allocate_not_mem
  · intro base existing h0 h1
    constructor
    · unfold allocate
      rw [show allocLoop base existing (existing.length + 1) 0 =
          if candidate base 0 ∈ existing then
            allocLoop base existing existing.length 1
          else candidate base 0 from rfl, if_neg h0]
    · unfold allocate
      have hmem0 : candidate base 0 ∈ candidate base 0 :: existing :=
        List.mem_cons_self _ _
      have hlen : (candidate base 0 :: existing).length + 1 =
          existing.length + 1 + 1 := by simp
      rw [hlen]
      rw [show allocLoop base (candidate base 0 :: existing)
            (existing.length + 1 + 1) 0 =
          if candidate base 0 ∈ candidate base 0 :: existing then
            allocLoop base (candidate base 0 :: existing) (existing.length + 1) 1
          else candidate base 0 from rfl, if_pos hmem0]
      have hne : candidate base 1 ∉ candidate base 0 :: existing := by
        intro hmem
        rcases List.mem_cons.mp hmem with heq | hmem2
        · exact absurd (candidate_inj base heq) (by omega)
        · exact h1 hmem2
      cases hfuel : existing.length + 1 with
      | zero => omega
      | succ g =>
        rw [show allocLoop base (candidate base 0 :: existing) (g + 1) 1 =
            if candidate base 1 ∈ candidate base 0 :: existing then
              allocLoop base (candidate base 0 :: existing) g 2
            else candidate base 1 from rfl, if_neg hne]

theorem allocation_fresh_and_incrementing_witness :
    allocate "note" ["note.md"] ∉ (["note.md"] : List String) ∧
    (allocate "note" [] = candidate "note" 0 ∧
      allocate "note" (candidate "note" 0 :: []) = candidate "note" 1) :=
  ⟨allocation_fresh_and_incrementing.1 "note" ["note.md"],
    allocation_fresh_and_incrementing.2 "note" [] (by decide) (by decide)⟩

theorem litS_head_none (s : String) (c : Char) (cs : List Char) (p : Char)
    (ps : List Char) (hs : s.toList = p :: ps) (h : c ≠ p) :
    litS s (c :: cs) = none := by
  unfold litS
  rw [hs]
  rw [show lit (p :: ps) (c :: cs) = if c = p then lit ps cs else none from rfl,
    if_neg h]

theorem reSubF_id_of_none (m : List Char → Option (List Char × List Char)) :
    ∀ (fuel : Nat) (l : List Char),
    (∀ t, t <:+ l → t ≠ [] → m t = none) → reSubF m fuel l = l := by
  intro fuel
  induction fuel with
  | zero => intro l _; rfl
  | succ g ih =>
    intro l h
    cases l with
    | nil => rfl
    | cons c cs =>
      have hm := h (c :: cs) (List.suffix_refl _) (by simp)
      have step : reSubF m (g + 1) (c :: cs) =
          match m (c :: cs) with
          | some (rep, rest) => rep ++ reSubF m g rest
          | none => c :: reSubF m g cs := rfl
      rw [step, hm]
      show c :: reSubF m g cs = c :: cs
      rw [ih cs (fun t ht hne => h t (ht.trans (List.suffix_cons c cs)) hne)]

theorem reSub_id_of_none (m : List Char → Option (List Char × List Char))
    (l : List Char) (h : ∀ t, t <:+ l → t ≠ [] → m t = none) :
    reSub m l = l :=
  reSubF_id_of_none m l.length l h

theorem reSub_id_of_head_ne (m : List Char → Option (List Char × List Char))
    (tr : Char) (hm : ∀ c cs, c ≠ tr → m (c :: cs) = none)
    (l : List Char) (hl : ∀ c ∈ l, c ≠ tr) : reSub m l = l := by
  apply reSub_id_of_none
  intro t ht hne
  cases t with
  | nil => exact absurd rfl hne
  | cons c cs =>
    exact hm c cs (hl c (ht.subset (List.mem_cons_self c cs)))

theorem applyN_id (n : Nat) (f : List Char → List Char) (a : List Char)
    (h : f a = a) : applyN n f a = a := by
  induction n with
  | zero => rfl
  | succ g ih =>
    show applyN g f (f a) = a
    rw [h, ih]

theorem mLinkedImage_none (c : Char) (cs : List Char) (h : c ≠ '<') :
    mLinkedImage (c :: cs) = none := by
  unfold mLinkedImage
  rw [litS_head_none _ c cs '<' _ rfl h]
  rfl

theorem mImgTag_none (c : Char) (cs : List Char) (h : c ≠ '<') :
    mImgTag (c :: cs) = none := by
  unfold mImgTag
  rw [litS_head_none _ c cs '<' _ rfl h]
  rfl

theorem mStrong_none (c : Char) (cs : List Char) (h : c ≠ '<') :
    mStrong (c :: cs) = none := by
  unfold mStrong
  rw [litS_head_none _ c cs '<' _ rfl h]
  rfl

theorem mB_none (c : Char) (cs : List Char) (h : c ≠ '<') :
    mB (c :: cs) = none := by
  unfold mB
  rw [litS_head_none _ c cs '<' _ rfl h]
  rfl

theorem mEm_none (c : Char) (cs : List Char) (h : c ≠ '<') :
    mEm (c :: cs) = none := by
  unfold mEm
  rw [litS_head_none _ c cs '<' _ rfl h]
  rfl

theorem mI_none (c : Char) (cs : List Char) (h : c ≠ '<') :
    mI (c :: cs) = none := by
  unfold mI
  rw [litS_head_none _ c cs '<' _ rfl h]
  rfl

theorem mCode_none (c : Char) (cs : List Char) (h : c ≠ '<') :
    mCode (c :: cs) = none := by
  unfold mCode
  rw [litS_head_none _ c cs '<' _ rfl h]
  rfl

theorem mCodeTag_none (c : Char) (cs : List Char) (h : c ≠ '<') :
    mCodeTag (c :: cs) = none := by
  unfold mCodeTag
  rw [litS_head_none _ c cs '<' _ rfl h]
  rfl

theorem mUPair_none (c : Char) (cs : List Char) (h : c ≠ '<') :
    mUPair (c :: cs) = none := by
  unfold mUPair
  rw [litS_head_none _ c cs '<' _ rfl h]
  rfl

theorem mUTag_none (c : Char) (cs : List Char) (h : c ≠ '<') :
    mUTag (c :: cs) = none := by
  unfold mUTag
  rw [litS_head_none _ c cs '<' _ rfl h]
  rfl

theorem mBr_none (c : Char) (cs : List Char) (h : c ≠ '<') :
    mBr (c :: cs) = none := by
  unfold mBr
  rw [litS_head_none _ c cs '<' _ rfl h]
  rfl

theorem mHr_none (c : Char) (cs : List Char) (h : c ≠ '<') :
    mHr (c :: cs) = none := by
  unfold mHr
  rw [litS_head_none _ c cs '<' _ rfl h]
  rfl

theorem mSpanLabel_none (c : Char) (cs : List Char) (h : c ≠ '<') :
    mSpanLabel (c :: cs) = none := by
  unfold mSpanLabel
  rw [litS_head_none _ c cs '<' _ rfl h]
  rfl

theorem mNimbusBookmark_none (c : Char) (cs : List Char) (h : c ≠ '<') :
    mNimbusBookmark (c :: cs) = none := by
  unfold mNimbusBookmark
  rw [litS_head_none _ c cs '<' _ rfl h]
  rfl

theorem mNimbusContents_none (c : Char) (cs : List Char) (h : c ≠ '<') :
    mNimbusContents (c :: cs) = none := by
  unfold mNimbusContents
  rw [litS_head_none _ c cs '<' _ rfl h]
  rfl

theorem mEmptyAnchorA_none (c : Char) (cs : List Char) (h : c ≠ '<') :
    mEmptyAnchorA (c :: cs) = none := by
  unfold mEmptyAnchorA
  rw [litS_head_none _ c cs '<' _ rfl h]
  rfl

theorem mTableTag_none (c : Char) (cs : List Char) (h : c ≠ '<') :
    mTableTag (c :: cs) = none := by
  unfold mTableTag
  rw [litS_head_none _ c cs '<' _ rfl h]
  rfl

theorem mTheadTag_none (c : Char) (cs : List Char) (h : c ≠ '<') :
    mTheadTag (c :: cs) = none := by
  unfold mTheadTag
  rw [litS_head_none _ c cs '<' _ rfl h]
  rfl

theorem mTbodyTag_none (c : Char) (cs : List Char) (h : c ≠ '<') :
    mTbodyTag (c :: cs) = none := by
  unfold mTbodyTag
  rw [litS_head_none _ c cs '<' _ rfl h]
  rfl

theorem mTrOpen_none (c : Char) (cs : List Char) (h : c ≠ '<') :
    mTrOpen (c :: cs) = none := by
  unfold mTrOpen
  rw [litS_head_none _ c cs '<' _ rfl h]
  rfl

theorem mTrClose_none (c : Char) (cs : List Char) (h : c ≠ '<') :
    mTrClose (c :: cs) = none := by
  unfold mTrClose
  rw [litS_head_none _ c cs '<' _ rfl h]
  rfl

theorem mCellOpen_none (c : Char) (cs : List Char) (h : c ≠ '<') :
    mCellOpen (c :: cs) = none := by
  unfold mCellOpen
  rw [litS_head_none _ c cs '<' _ rfl h]
  rfl

theorem mCellClose_none (c : Char) (cs : List Char) (h : c ≠ '<') :
    mCellClose (c :: cs) = none := by
  unfold mCellClose
  rw [litS_head_none _ c cs '<' _ rfl h]
  rfl

theorem mSpanEmpty_none (c : Char) (cs : List Char) (h : c ≠ '<') :
    mSpanEmpty (c :: cs) = none := by
  unfold mSpanEmpty
  rw [litS_head_none _ c cs '<' _ rfl h]
  rfl

theorem mSpanUnwrap_none (c : Char) (cs : List Char) (h : c ≠ '<') :
    mSpanUnwrap (c :: cs) = none := by
  unfold mSpanUnwrap
  rw [litS_head_none _ c cs '<' _ rfl h]
  rfl

theorem mSpanTag_none (c : Char) (cs : List Char) (h : c ≠ '<') :
    mSpanTag (c :: cs) = none := by
  unfold mSpanTag
  rw [litS_head_none _ c cs '<' _ rfl h]
  rfl

theorem mDivUnwrap_none (c : Char) (cs : List Char) (h : c ≠ '<') :
    mDivUnwrap (c :: cs) = none := by
  unfold mDivUnwrap
  rw [litS_head_none _ c cs '<' _ rfl h]
  rfl

theorem mDivTag_none (c : Char) (cs : List Char) (h : c ≠ '<') :
    mDivTag (c :: cs) = none := by
  unfold mDivTag
  rw [litS_head_none _ c cs '<' _ rfl h]
  rfl

theorem mPUnwrap_none (c : Char) (cs : List Char) (h : c ≠ '<') :
    mPUnwrap (c :: cs) = none := by
  unfold mPUnwrap
  rw [litS_head_none _ c cs '<' _ rfl h]
  rfl

theorem mPTag_none (c : Char) (cs : List Char) (h : c ≠ '<') :
    mPTag (c :: cs) = none := by
  unfold mPTag
  rw [litS_head_none _ c cs '<' _ rfl h]
  rfl

theorem mALink_none (c : Char) (cs : List Char) (h : c ≠ '<') :
    mALink (c :: cs) = none := by
  unfold mALink
  rw [litS_head_none _ c cs '<' _ rfl h]
  rfl

theorem mEmptyAnchorB_none (c : Char) (cs : List Char) (h : c ≠ '<') :
    mEmptyAnchorB (c :: cs) = none := by
  unfold mEmptyAnchorB
  rw [litS_head_none _ c cs '<' _ rfl h]
  rfl

theorem mImgOrphan_none (c : Char) (cs : List Char) (h : c ≠ '<') :
    mImgOrphan (c :: cs) = none := by
  unfold mImgOrphan
  rw [litS_head_none _ c cs '<' _ rfl h]
  rfl

theorem mB64Svg_none (c : Char) (cs : List Char) (h : c ≠ '!') :
    mB64Svg (c :: cs) = none := by
  unfold mB64Svg
  rw [litS_head_none _ c cs '!' _ rfl h]
  rfl

theorem mB64Any_none (c : Char) (cs : List Char) (h : c ≠ '!') :
    mB64Any (c :: cs) = none := by
  unfold mB64Any
  rw [litS_head_none _ c cs '!' _ rfl h]
  rfl

theorem mPipe3_none (c : Char) (cs : List Char) (h : c ≠ '|') :
    mPipe3 (c :: cs) = none := by
  unfold mPipe3
  rw [litS_head_none _ c cs '|' _ rfl h]
  rfl

theorem mPipe2_none (c : Char) (cs : List Char) (h : c ≠ '|') :
    mPipe2 (c :: cs) = none := by
  unfold mPipe2
  rw [litS_head_none _ c cs '|' _ rfl h]
  rfl

theorem mPipeLine1_none (l : List Char) (h : ∀ c ∈ l, c ≠ '|') :
    mPipeLine1 l = none := by
  cases l with
  | nil => rfl
  | cons c cs =>
    unfold mPipeLine1
    by_cases hc : c = '\n'
    · subst hc
      have hlit : litS "|" (List.dropWhile isWS cs) = none := by
        cases hd : List.dropWhile isWS cs with
        | nil => rfl
        | cons d ds =>
          have hdm : d ∈ cs := by
            have hmem : d ∈ List.dropWhile isWS cs := by
              rw [hd]; exact List.mem_cons_self d ds
            exact (List.dropWhile_suffix isWS).subset hmem
          exact litS_head_none _ d ds '|' _ rfl
            (h d (List.mem_cons_of_mem '\n' hdm))
      show (match litS "|" (List.dropWhile isWS cs) with
        | none => none
        | some r2 =>
          match takeToLastNL r2 with
          | none => none
          | some r3 => some (['\n'], r3)) = none
      rw [hlit]
    · rw [litS_head_none _ c cs '\n' _ rfl hc]

theorem mPipeLine2_none (l : List Char) (h : ∀ c ∈ l, c ≠ '|') :
    mPipeLine2 l = none := by
  cases l with
  | nil => rfl
  | cons c cs =>
    unfold mPipeLine2
    by_cases hc : c = '\n'
    · subst hc
      have hlit : litS "|" (List.dropWhile isWS cs) = none := by
        cases hd : List.dropWhile isWS cs with
        | nil => rfl
        | cons d ds =>
          have hdm : d ∈ cs := by
            have hmem : d ∈ List.dropWhile isWS cs := by
              rw [hd]; exact List.mem_cons_self d ds
            exact (List.dropWhile_suffix isWS).subset hmem
          exact litS_head_none _ d ds '|' _ rfl
            (h d (List.mem_cons_of_mem '\n' hdm))
      show (match litS "|" (List.dropWhile isWS cs) with
        | none => none
        | some r2 =>
          match litS "|" (List.dropWhile isWS r2) with
          | none => none
          | some r3 =>
            match takeToLastNL r3 with
            | none => none
            | some r4 => some (['\n'], r4)) = none
      rw [hlit]
    · rw [litS_head_none _ c cs '\n' _ rfl hc]

theorem mNL4_none (l : List Char) (h : nlRun4At l = false) : mNL4 l = none := by
  have hnot : ¬ 4 ≤ (l.takeWhile isNL).length := by
    intro hge
    have htw : l.takeWhile isNL =
        List.replicate (l.takeWhile isNL).length '\n' :=
      List.eq_replicate_of_mem (fun b hb => by
        have := List.mem_takeWhile_imp hb
        simpa [isNL] using this)
    have htake : l.take 4 = List.replicate 4 '\n' := by
      obtain ⟨t, ht⟩ := List.takeWhile_prefix (l := l) isNL
      calc l.take 4 = ((l.takeWhile isNL) ++ t).take 4 := by rw [ht]
        _ = (l.takeWhile isNL).take 4 := List.take_append_of_le_length hge
        _ = (List.replicate (l.takeWhile isNL).length '\n').take 4 := by
            rw [← htw]
        _ = List.replicate (min 4 (l.takeWhile isNL).length) '\n' :=
            List.take_replicate '\n' 4 _
        _ = List.replicate 4 '\n' := by rw [min_eq_left hge]
    have htrue : nlRun4At l = true := by
      unfold nlRun4At
      rw [htake]
      simp
    rw [h] at htrue
    exact Bool.false_ne_true htrue
  show (if 4 ≤ (l.takeWhile isNL).length then
      some (['\n', '\n', '\n'], l.dropWhile isNL) else none) = none
  rw [if_neg hnot]

theorem nlRun4At_append (u b : List Char) (h : nlRun4At u = true) :
    nlRun4At (u ++ b) = true := by
  unfold nlRun4At at h ⊢
  have hu : u.take 4 = List.replicate 4 '\n' := by simpa using h
  have hlen : 4 ≤ u.length := by
    have hl := congrArg List.length hu
    simp [List.length_take] at hl
    omega
  rw [List.take_append_of_le_length hlen, hu]
  simp

theorem hasRun4_suffix (l t : List Char) (ht : t <:+ l)
    (h : hasRun4 l = false) : hasRun4 t = false := by
  obtain ⟨a, ha⟩ := ht
  suffices haux : ∀ (a2 l2 : List Char), a2 ++ t = l2 → hasRun4 l2 = false →
      hasRun4 t = false from haux a l ha h
  intro a2
  induction a2 with
  | nil =>
    intro l2 ha2 h2
    have : t = l2 := by simpa using ha2
    rwa [this]
  | cons x a3 ih =>
    intro l2 ha2 h2
    have hl : l2 = x :: (a3 ++ t) := by rw [← ha2]; rfl
    rw [hl] at h2
    simp only [hasRun4, Bool.or_eq_false_iff] at h2
    exact ih (a3 ++ t) rfl h2.2

theorem hasRun4_head (t : List Char) (h : hasRun4 t = false) :
    nlRun4At t = false := by
  cases t with
  | nil => rfl
  | cons c cs =>
    simp [hasRun4] at h
    exact h.1

theorem hasRun4_append_left (a b : List Char)
    (h : hasRun4 (a ++ b) = false) : hasRun4 a = false := by
  induction a with
  | nil => rfl
  | cons c a2 ih =>
    have h2 : hasRun4 (c :: (a2 ++ b)) = false := h
    simp only [hasRun4, Bool.or_eq_false_iff] at h2 ⊢
    refine ⟨?_, ih h2.2⟩
    by_contra hcon
    have hT : nlRun4At (c :: a2) = true := by
      cases hval : nlRun4At (c :: a2) with
      | true => rfl
      | false => exact absurd hval hcon
    have := nlRun4At_append (c :: a2) b hT
    rw [show (c :: a2) ++ b = c :: (a2 ++ b) from rfl] at this
    rw [h2.1] at this
    exact Bool.false_ne_true this

theorem hasRun4_iff (l : List Char) :
    hasRun4 l = true ↔ ∃ a b, l = a ++ List.replicate 4 '\n' ++ b := by
  induction l with
  | nil =>
    constructor
    · intro h; simp [hasRun4] at h
    · rintro ⟨a, b, habs⟩
      have hlen := congrArg List.length habs
      simp [List.length_append] at hlen
      exact absurd hlen (by omega)
  | cons c cs ih =>
    constructor
    · intro h
      have h2 : nlRun4At (c :: cs) = true ∨ hasRun4 cs = true := by
        simpa [hasRun4, Bool.or_eq_true] using h
      rcases h2 with h2 | h2
      · have htake : (c :: cs).take 4 = List.replicate 4 '\n' := by
          simpa [nlRun4At] using h2
        exact ⟨[], (c :: cs).drop 4, by
          rw [List.nil_append, ← htake, List.take_append_drop]⟩
      · obtain ⟨a, b, hab⟩ := ih.mp h2
        exact ⟨c :: a, b, by simp [hab]⟩
    · rintro ⟨a, b, hab⟩
      cases a with
      | nil =>
        have htake : (c :: cs).take 4 = List.replicate 4 '\n' := by
          rw [hab, List.nil_append,
            List.take_append_of_le_length (by simp), List.take_of_length_le (by simp)]
        have hnl : nlRun4At (c :: cs) = true := by simp [nlRun4At, htake]
        simp [hasRun4, hnl]
      | cons x a2 =>
        have hxc : c :: cs = x :: (a2 ++ List.replicate 4 '\n' ++ b) := by
          rw [hab]; rfl
        have hcs : cs = a2 ++ List.replicate 4 '\n' ++ b :=
          (List.cons.injEq _ _ _ _ ▸ hxc).2
        have := ih.mpr ⟨a2, b, hcs⟩
        simp [hasRun4, this]

theorem append_singleton_inj (l1 l2 : List Char) (a b : Char)
    (h : l1 ++ [a] = l2 ++ [b]) : l1 = l2 ∧ a = b := by
  have hrev := congrArg List.reverse h
  simp only [List.reverse_append, List.reverse_cons, List.reverse_nil,
    List.nil_append, List.singleton_append] at hrev
  have h1 : a = b := (List.cons.injEq _ _ _ _ ▸ hrev).1
  have h2 : l1.reverse = l2.reverse := (List.cons.injEq _ _ _ _ ▸ hrev).2
  exact ⟨List.reverse_injective h2, h1⟩

theorem hasRun4_concat_nl (x : List Char) (hx : hasRun4 x = false)
    (hlast : x.getLast? ≠ some '\n') : hasRun4 (x ++ ['\n']) = false := by
  cases hval : hasRun4 (x ++ ['\n']) with
  | false => rfl
  | true =>
    exfalso
    obtain ⟨a, b, hab⟩ := (hasRun4_iff _).mp hval
    rcases List.eq_nil_or_concat b with rfl | ⟨b2, y, rfl⟩
    · have hx4 : x ++ ['\n'] = (a ++ List.replicate 3 '\n') ++ ['\n'] := by
        rw [hab]
        rw [show (List.replicate 4 '\n' : List Char) =
          List.replicate 3 '\n' ++ ['\n'] from rfl]
        simp
      have hxe := (append_singleton_inj _ _ _ _ hx4).1
      have hgl : x.getLast? = some '\n' := by
        rw [hxe]
        rw [show a ++ List.replicate 3 '\n' =
          (a ++ ['\n', '\n']) ++ ['\n'] from by simp [List.replicate]]
        exact List.getLast?_concat _
      exact hlast hgl
    · have hx4 : x ++ ['\n'] = (a ++ List.replicate 4 '\n' ++ b2) ++ [y] := by
        rw [hab]; simp
      obtain ⟨hx2, _⟩ := append_singleton_inj _ _ _ _ hx4
      have := (hasRun4_iff _).mpr ⟨a, b2, hx2⟩
      rw [hx] at this
      exact Bool.false_ne_true this

theorem head?_dropWhile (p : Char → Bool) (l : List Char) (c : Char)
    (h : (l.dropWhile p).head? = some c) : p c = false := by
  induction l with
  | nil => simp at h
  | cons x xs ih =>
    rw [List.dropWhile_cons] at h
    split at h
    · exact ih h
    · rename_i hx
      simp at h
      rw [← h]
      simpa using hx

theorem rstripNL_prefix (l : List Char) :
    l = rstripNL l ++ (l.reverse.takeWhile isNL).reverse := by
  unfold rstripNL
  have h1 := List.takeWhile_append_dropWhile (p := isNL) (l := l.reverse)
  have h2 := congrArg List.reverse h1
  rw [List.reverse_append, List.reverse_reverse] at h2
  exact h2.symm

theorem rstripNL_getLast (l : List Char) :
    (rstripNL l).getLast? ≠ some '\n' := by
  unfold rstripNL
  rw [List.getLast?_reverse]
  intro h
  have := head?_dropWhile isNL l.reverse '\n' h
  simp [isNL] at this

theorem rstripNL_append_nl (x : List Char) :
    rstripNL (x ++ ['\n']) = rstripNL x := by
  unfold rstripNL
  rw [List.reverse_append]
  simp only [List.reverse_cons, List.reverse_nil, List.nil_append,
    List.singleton_append]
  rw [List.dropWhile_cons]
  simp [isNL]

theorem rstripNL_eq_self (x : List Char) (hx : x.getLast? ≠ some '\n') :
    rstripNL x = x := by
  unfold rstripNL
  cases hrev : x.reverse with
  | nil =>
    have hx0 : x = [] := List.reverse_eq_nil_iff.mp hrev
    rw [hx0]
    rfl
  | cons d w =>
    have hd : x.getLast? = some d := by
      rw [← List.head?_reverse, hrev]
      rfl
    have hdn : d ≠ '\n' := fun he => hx (he ▸ hd)
    rw [List.dropWhile_cons, if_neg (by simp [isNL, hdn])]
    rw [← hrev, List.reverse_reverse]

theorem mem_rstripNL (x : List Char) (c : Char) (h : c ∈ rstripNL x) :
    c ∈ x := by
  unfold rstripNL at h
  rw [List.mem_reverse] at h
  have := (List.dropWhile_suffix isNL).subset h
  rwa [List.mem_reverse] at this

theorem mem_lstripNL (x : List Char) (c : Char) (h : c ∈ lstripNL x) :
    c ∈ x :=
  (List.dropWhile_suffix isNL).subset h

theorem splitNL_ne_nil (l : List Char) : splitNL l ≠ [] := by
  cases l with
  | nil => simp [splitNL]
  | cons c cs =>
    unfold splitNL
    by_cases hc : c = '\n'
    · simp [hc]
    · rw [if_neg hc]
      cases splitNL cs <;> simp

theorem splitNL_mem (l : List Char) :
    ∀ line ∈ splitNL l, ∀ c ∈ line, c ∈ l ∧ c ≠ '\n' := by
  induction l with
  | nil =>
    intro line hline c hc
    simp [splitNL] at hline
    subst hline
    simp at hc
  | cons x xs ih =>
    intro line hline c hc
    unfold splitNL at hline
    by_cases hx : x = '\n'
    · rw [if_pos hx] at hline
      rcases List.mem_cons.mp hline with rfl | hline2
      · simp at hc
      · have := ih line hline2 c hc
        exact ⟨List.mem_cons_of_mem x this.1, this.2⟩
    · rw [if_neg hx] at hline
      cases hsp : splitNL xs with
      | nil => exact absurd hsp (splitNL_ne_nil xs)
      | cons h t =>
        rw [hsp] at hline
        rcases List.mem_cons.mp hline with rfl | hline2
        · rcases List.mem_cons.mp hc with rfl | hc2
          · exact ⟨List.mem_cons_self c xs, hx⟩
          · have := ih h (by rw [hsp]; exact List.mem_cons_self h t) c hc2
            exact ⟨List.mem_cons_of_mem x this.1, this.2⟩
        · have := ih line (by rw [hsp]; exact List.mem_cons_of_mem h hline2) c hc
          exact ⟨List.mem_cons_of_mem x this.1, this.2⟩

theorem joinNL_splitNL (l : List Char) : joinNL (splitNL l) = l := by
  induction l with
  | nil => rfl
  | cons x xs ih =>
    unfold splitNL
    by_cases hx : x = '\n'
    · rw [if_pos hx]
      cases hsp : splitNL xs with
      | nil => exact absurd hsp (splitNL_ne_nil xs)
      | cons h t =>
        rw [show joinNL ([] :: h :: t) = [] ++ '\n' :: joinNL (h :: t) from rfl]
        rw [← hsp, ih, hx]
        rfl
    · rw [if_neg hx]
      cases hsp : splitNL xs with
      | nil => exact absurd hsp (splitNL_ne_nil xs)
      | cons h t =>
        cases t with
        | nil =>
          rw [show joinNL [x :: h] = x :: h from rfl]
          rw [hsp] at ih
          rw [show joinNL [h] = h from rfl] at ih
          rw [ih]
        | cons y t2 =>
          rw [show joinNL ((x :: h) :: y :: t2) =
            (x :: h) ++ '\n' :: joinNL (y :: t2) from rfl]
          rw [hsp] at ih
          rw [show joinNL (h :: y :: t2) =
            h ++ '\n' :: joinNL (y :: t2) from rfl] at ih
          rw [show (x :: h) ++ '\n' :: joinNL (y :: t2) =
            x :: (h ++ '\n' :: joinNL (y :: t2)) from rfl, ih]

theorem pyRstrip_id (line : List Char) (h : ∀ c ∈ line, isWS c = false) :
    pyRstrip line = line := by
  unfold pyRstrip
  cases hrev : line.reverse with
  | nil =>
    have h0 : line = [] := List.reverse_eq_nil_iff.mp hrev
    rw [h0]
    rfl
  | cons d w =>
    have hd : d ∈ line := by
      have hmem : d ∈ line.reverse := by
        rw [hrev]; exact List.mem_cons_self d w
      rwa [List.mem_reverse] at hmem
    rw [List.dropWhile_cons, if_neg (by simp [h d hd])]
    rw [← hrev, List.reverse_reverse]

theorem map_pyRstrip_id (l : List Char)
    (h : ∀ c ∈ l, isWS c = true → c = '\n') :
    (splitNL l).map pyRstrip = splitNL l := by
  have hlines : ∀ line ∈ splitNL l, pyRstrip line = line := by
    intro line hline
    apply pyRstrip_id
    intro c hc
    have hcl := splitNL_mem l line hline c hc
    cases hws : isWS c with
    | false => rfl
    | true => exact absurd (h c hcl.1 hws) hcl.2
  calc (splitNL l).map pyRstrip = (splitNL l).map id :=
        List.map_congr_left hlines
    _ = splitNL l := List.map_id _

theorem lineStage_plain (l : List Char)
    (h : ∀ c ∈ l, isWS c = true → c = '\n') :
    lineStage l = rstripNL (lstripNL l) ++ ['\n'] := by
  unfold lineStage
  rw [map_pyRstrip_id l h, joinNL_splitNL]

theorem cleanTags_id (l : List Char) (hG : ∀ c ∈ l, GoodChar c) :
    cleanTags l = l := by
  have hlt : ∀ c ∈ l, c ≠ '<' := fun c hc => (hG c hc).1
  have hpipe : ∀ c ∈ l, c ≠ '|' := fun c hc => (hG c hc).2.1
  have hbang : ∀ c ∈ l, c ≠ '!' := fun c hc => (hG c hc).2.2.1
  have eLinkedImage : reSub mLinkedImage l = l :=
    reSub_id_of_head_ne _ '<' mLinkedImage_none l hlt
  have eImgTag : reSub mImgTag l = l :=
    reSub_id_of_head_ne _ '<' mImgTag_none l hlt
  have eStrong : reSub mStrong l = l :=
    reSub_id_of_head_ne _ '<' mStrong_none l hlt
  have eB : reSub mB l = l := reSub_id_of_head_ne _ '<' mB_none l hlt
  have eEm : reSub mEm l = l := reSub_id_of_head_ne _ '<' mEm_none l hlt
  have eI : reSub mI l = l := reSub_id_of_head_ne _ '<' mI_none l hlt
  have eCode : reSub mCode l = l := reSub_id_of_head_ne _ '<' mCode_none l hlt
  have eCodeTag : reSub mCodeTag l = l :=
    reSub_id_of_head_ne _ '<' mCodeTag_none l hlt
  have eUPair : reSub mUPair l = l :=
    reSub_id_of_head_ne _ '<' mUPair_none l hlt
  have eUTag : reSub mUTag l = l := reSub_id_of_head_ne _ '<' mUTag_none l hlt
  have eBr : reSub mBr l = l := reSub_id_of_head_ne _ '<' mBr_none l hlt
  have eHr : reSub mHr l = l := reSub_id_of_head_ne _ '<' mHr_none l hlt
  have eSpanLabel : reSub mSpanLabel l = l :=
    reSub_id_of_head_ne _ '<' mSpanLabel_none l hlt
  have eNimbusBookmark : reSub mNimbusBookmark l = l :=
    reSub_id_of_head_ne _ '<' mNimbusBookmark_none l hlt
  have eNimbusContents : reSub mNimbusContents l = l :=
    reSub_id_of_head_ne _ '<' mNimbusContents_none l hlt
  have eEmptyAnchorA : reSub mEmptyAnchorA l = l :=
    reSub_id_of_head_ne _ '<' mEmptyAnchorA_none l hlt
  have eTableTag : reSub mTableTag l = l :=
    reSub_id_of_head_ne _ '<' mTableTag_none l hlt
  have eTheadTag : reSub mTheadTag l = l :=
    reSub_id_of_head_ne _ '<' mTheadTag_none l hlt
  have eTbodyTag : reSub mTbodyTag l = l :=
    reSub_id_of_head_ne _ '<' mTbodyTag_none l hlt
  have eTrOpen : reSub mTrOpen l = l :=
    reSub_id_of_head_ne _ '<' mTrOpen_none l hlt
  have eTrClose : reSub mTrClose l = l :=
    reSub_id_of_head_ne _ '<' mTrClose_none l hlt
  have eCellOpen : reSub mCellOpen l = l :=
    reSub_id_of_head_ne _ '<' mCellOpen_none l hlt
  have eCellClose : reSub mCellClose l = l :=
    reSub_id_of_head_ne _ '<' mCellClose_none l hlt
  have eSpanEmpty : reSub mSpanEmpty l = l :=
    reSub_id_of_head_ne _ '<' mSpanEmpty_none l hlt
  have eSpanUnwrap : reSub mSpanUnwrap l = l :=
    reSub_id_of_head_ne _ '<' mSpanUnwrap_none l hlt
  have eSpanTag : reSub mSpanTag l = l :=
    reSub_id_of_head_ne _ '<' mSpanTag_none l hlt
  have eDivUnwrap : reSub mDivUnwrap l = l :=
    reSub_id_of_head_ne _ '<' mDivUnwrap_none l hlt
  have eDivTag : reSub mDivTag l = l :=
    reSub_id_of_head_ne _ '<' mDivTag_none l hlt
  have ePUnwrap : reSub mPUnwrap l = l :=
    reSub_id_of_head_ne _ '<' mPUnwrap_none l hlt
  have ePTag : reSub mPTag l = l := reSub_id_of_head_ne _ '<' mPTag_none l hlt
  have eALink : reSub mALink l = l :=
    reSub_id_of_head_ne _ '<' mALink_none l hlt
  have eEmptyAnchorB : reSub mEmptyAnchorB l = l :=
    reSub_id_of_head_ne _ '<' mEmptyAnchorB_none l hlt
  have eImgOrphan : reSub mImgOrphan l = l :=
    reSub_id_of_head_ne _ '<' mImgOrphan_none l hlt
  have eB64Svg : reSub mB64Svg l = l :=
    reSub_id_of_head_ne _ '!' mB64Svg_none l hbang
  have eB64Any : reSub mB64Any l = l :=
    reSub_id_of_head_ne _ '!' mB64Any_none l hbang
  have ePipe3 : reSub mPipe3 l = l :=
    reSub_id_of_head_ne _ '|' mPipe3_none l hpipe
  have ePipe2 : reSub mPipe2 l = l :=
    reSub_id_of_head_ne _ '|' mPipe2_none l hpipe
  have ePipeLine2 : reSub mPipeLine2 l = l := by
    apply reSub_id_of_none
    intro t ht _
    exact mPipeLine2_none t (fun c hc => hpipe c (ht.subset hc))
  have ePipeLine1 : reSub mPipeLine1 l = l := by
    apply reSub_id_of_none
    intro t ht _
    exact mPipeLine1_none t (fun c hc => hpipe c (ht.subset hc))
  have eSB : applyN 3 (fun x => reSub mB (reSub mStrong x)) l = l :=
    applyN_id 3 _ l (by show reSub mB (reSub mStrong l) = l; rw [eStrong, eB])
  have eEI : applyN 3 (fun x => reSub mI (reSub mEm x)) l = l :=
    applyN_id 3 _ l (by show reSub mI (reSub mEm l) = l; rw [eEm, eI])
  have eCode3 : applyN 3 (reSub mCode) l = l := applyN_id 3 _ l eCode
  have eSpan5 : applyN 5 (reSub mSpanUnwrap) l = l := applyN_id 5 _ l eSpanUnwrap
  simp only [cleanTags]
  rw [eLinkedImage, eImgTag, eSB, eEI, eCode3, eCodeTag, eUPair, eUTag, eBr,
    eHr, eSpanLabel, eNimbusBookmark, eNimbusContents, eEmptyAnchorA,
    eTableTag, eTheadTag, eTbodyTag, eTrOpen, eTrClose, eCellOpen, eCellClose,
    eSpanEmpty, eSpan5, eSpanTag, eDivUnwrap, eDivTag, ePUnwrap, ePTag,
    eALink, eEmptyAnchorB, eImgOrphan, eB64Svg, eB64Any, ePipe3, ePipe2,
    ePipeLine2, ePipeLine1]

theorem reSub_mNL4_id (l : List Char) (h : hasRun4 l = false) :
    reSub mNL4 l = l := by
  apply reSub_id_of_none
  intro t ht _
  exact mNL4_none t (hasRun4_head t (hasRun4_suffix l t ht h))

theorem cleanBody_plain (l : List Char) (hG : ∀ c ∈ l, GoodChar c)
    (hR : hasRun4 l = false) :
    cleanBody l = rstripNL (lstripNL l) ++ ['\n'] := by
  unfold cleanBody
  rw [cleanTags_id l hG, reSub_mNL4_id l hR]
  exact lineStage_plain l (fun c hc hws => (hG c hc).2.2.2.2 hws)

theorem extractFM_none_of_no_dash (l : List Char) (h : ∀ c ∈ l, c ≠ '-') :
    extractFM l = none := by
  cases l with
  | nil => rfl
  | cons c cs =>
    unfold extractFM
    rw [litS_head_none _ c cs '-' _ rfl (h c (List.mem_cons_self c cs))]

theorem plain_fixed_step (S : List Char)
    (hhead : ∀ c S2, S = c :: S2 → c ≠ '\n')
    (hlast : S.getLast? ≠ some '\n') :
    rstripNL (lstripNL (S ++ ['\n'])) ++ ['\n'] = S ++ ['\n'] := by
  cases hS : S with
  | nil => rfl
  | cons c S2 =>
    have hc : c ≠ '\n' := hhead c S2 hS
    have hl1 : lstripNL ((c :: S2) ++ ['\n']) = (c :: S2) ++ ['\n'] := by
      show List.dropWhile isNL (c :: (S2 ++ ['\n'])) = c :: (S2 ++ ['\n'])
      rw [List.dropWhile_cons, if_neg (by simp [isNL, hc])]
    rw [hl1, rstripNL_append_nl, rstripNL_eq_self (c :: S2) (hS ▸ hlast)]

theorem cleanDoc_idem (l : List Char) (hG : ∀ c ∈ l, GoodChar c)
    (hR : hasRun4 l = false) : cleanDoc (cleanDoc l) = cleanDoc l := by
  have hdash : ∀ c ∈ l, c ≠ '-' := fun c hc => (hG c hc).2.2.2.1
  have hfm : extractFM l = none := extractFM_none_of_no_dash l hdash
  have h1 : cleanDoc l = cleanBody l := by unfold cleanDoc; rw [hfm]
  have h2 : cleanBody l = rstripNL (lstripNL l) ++ ['\n'] :=
    cleanBody_plain l hG hR
  have hZsuffix : lstripNL l <:+ l := List.dropWhile_suffix isNL
  have hSsub : ∀ c ∈ rstripNL (lstripNL l), c ∈ l := fun c hc =>
    mem_lstripNL l c (mem_rstripNL (lstripNL l) c hc)
  have hG1 : ∀ c ∈ rstripNL (lstripNL l) ++ ['\n'], GoodChar c := by
    intro c hc
    rcases List.mem_append.mp hc with hc | hc
    · exact hG c (hSsub c hc)
    · have : c = '\n' := by simpa using hc
      rw [this]
      decide
  have hRZ : hasRun4 (lstripNL l) = false :=
    hasRun4_suffix l (lstripNL l) hZsuffix hR
  have hRS : hasRun4 (rstripNL (lstripNL l)) = false := by
    have hpre := rstripNL_prefix (lstripNL l)
    exact hasRun4_append_left _ _ (by rw [← hpre]; exact hRZ)
  have hSlast : (rstripNL (lstripNL l)).getLast? ≠ some '\n' :=
    rstripNL_getLast (lstripNL l)
  have hR1 : hasRun4 (rstripNL (lstripNL l) ++ ['\n']) = false :=
    hasRun4_concat_nl _ hRS hSlast
  have hfm1 : extractFM (rstripNL (lstripNL l) ++ ['\n']) = none :=
    extractFM_none_of_no_dash _ (fun c hc => (hG1 c hc).2.2.2.1)
  have hShead : ∀ c S2, rstripNL (lstripNL l) = c :: S2 → c ≠ '\n' := by
    intro c S2 hcS
    have hpre := rstripNL_prefix (lstripNL l)
    have hZc : (lstripNL l).head? = some c := by
      rw [hpre, hcS]
      rfl
    have := head?_dropWhile isNL l c hZc
    simp [isNL] at this
    exact this
  rw [h1, h2]
  have h3 : cleanDoc (rstripNL (lstripNL l) ++ ['\n']) =
      cleanBody (rstripNL (lstripNL l) ++ ['\n']) := by
    unfold cleanDoc; rw [hfm1]
  rw [h3, cleanBody_plain _ hG1 hR1]
  exact plain_fixed_step _ hShead hSlast

/-- C1 (amended): the cleanup Rule Pipeline is idempotent on every text on
which none of its substitution rules can fire and whose blank-line runs
are already within bounds: texts containing no `<`, `|`, `!`, or `-`
characters, no whitespace other than newline, and no run of four or more
consecutive newlines.  (The counterexample shows idempotence fails in
general: stripping trailing whitespace from lines can create a new run of
four or more newlines that only the next pass collapses.) -/
theorem clean_markdown_idempotent_on_plain_text (T : String)
    (hG : ∀ c ∈ T.data, GoodChar c) (hR : hasRun4 T.data = false) :
    clean_markdown (clean_markdown T) = clean_markdown T := by
  have hl := cleanDoc_idem T.data hG hR
  show String.mk (cleanDoc (String.mk (cleanDoc T.data)).data) =
    String.mk (cleanDoc T.data)
  rw [show (String.mk (cleanDoc T.data)).data = cleanDoc T.data from rfl, hl]

theorem clean_markdown_idempotent_on_plain_text_witness :
    clean_markdown (clean_markdown "ab\ncd") = clean_markdown "ab\ncd" :=
  clean_markdown_idempotent_on_plain_text "ab\ncd" (by decide) (by decide)
